import Mathlib

/-!
# Verification of the matrix-class repository (src/matrixclass.cpp)

Shallow embedding of the C++ `Matrix` class and its two multiplication
strategies (sequential `multiply`, thread-partitioned `multiplyParallel`),
together with proofs of the specification claims.

Modelling conventions:
* `int` cells are modelled as `Int` with explicit 32-bit two's-complement
  wrap-around (`wrap32`) applied at every arithmetic step where the C++
  code performs `int` arithmetic that may overflow.
* `std::vector<std::vector<int>> data` is a `List (List Int)`; the C++
  loops become `List.foldl` over `List.range` / `List.range'`.
* The worker threads of `multiplyParallel` write to pairwise-disjoint
  output cells (proved below as the partition-coverage property), so the
  concurrent execution is modelled as the sequential composition of the
  workers' effects, in worker order.
* `throw` is modelled with `Except`.  The division `rows*cols / num_threads`
  performed by `multiplyParallel` is undefined behaviour in C++ when
  `num_threads = 0`; the embedding marks that case with the explicit error
  value `MatrixError.undefinedBehavior`.
* `std::mt19937 gen` seeded from `std::random_device` is modelled as an
  arbitrary stream `gen : Nat → Nat` of raw draws;
  `uniform_int_distribution<>(1, 10)` maps the t-th raw draw into
  `[1, 10]` as `1 + gen t % 10`.
-/

namespace MatrixClass

/-- The 32-bit two's-complement wrap-around: the unique value in
`[-2^31, 2^31)` congruent to `x` modulo `2^32`. -/
def wrap32 (x : Int) : Int := (x + 2 ^ 31) % 2 ^ 32 - 2 ^ 31

/-- Errors surfaced by the class (and, for the spec's taxonomy, the error
names the spec assigns to conditions the code does not actually check:
`invalidDimension` and `invalidWorkerCount` are raised nowhere in the
code).  `undefinedBehavior` marks the division by zero reached by
`multiplyParallel` when `num_threads = 0`. -/
inductive MatrixError where
  | indexOutOfRange
  | dimensionMismatch
  | invalidDimension
  | invalidWorkerCount
  | undefinedBehavior
deriving DecidableEq, Repr

instance {ε α : Type} [DecidableEq ε] [DecidableEq α] : DecidableEq (Except ε α) :=
  fun x y =>
    match x, y with
    | .ok a, .ok b =>
        if h : a = b then isTrue (by rw [h]) else isFalse (by intro hh; cases hh; exact h rfl)
    | .error a, .error b =>
        if h : a = b then isTrue (by rw [h]) else isFalse (by intro hh; cases hh; exact h rfl)
    | .ok _, .error _ => isFalse (by intro hh; cases hh)
    | .error _, .ok _ => isFalse (by intro hh; cases hh)

/-- Read cell `(i, j)` of the raw storage, `data[i][j]` (unchecked access;
out-of-range reads default to `[]` / `0`, which the code never relies on:
every unchecked access in the source is in range by construction). -/
def getCell (d : List (List Int)) (i j : Nat) : Int := (d.getD i []).getD j 0

/-- Write cell `(i, j)` of the raw storage, `data[i][j] = v`. -/
def setCell (d : List (List Int)) (i j : Nat) (v : Int) : List (List Int) :=
  d.set i ((d.getD i []).set j v)

/-- The C++ `class Matrix`: `rows`, `cols`, and the 2D vector `data`. -/
structure Matrix where
  rows : Nat
  cols : Nat
  data : List (List Int)
deriving DecidableEq, Repr

/-- Constructor `Matrix(int rows, int cols)`: initialize with given dimensions and
fill with zeros (`data(rows, std::vector<int>(cols, 0))`). -/
def Matrix.construct (rows cols : Nat) : Matrix :=
  ⟨rows, cols, List.replicate rows (List.replicate cols 0)⟩

/-- Unchecked cell read `m.data[i][j]` used inside the multiplication
loops. -/
def Matrix.get (m : Matrix) (i j : Nat) : Int := getCell m.data i j

/-- Accessor `int& at(int row, int col)` used as an rvalue (read access): bounds
check, then `data[row][col]`. -/
def Matrix.at (m : Matrix) (row col : Int) : Except MatrixError Int :=
  if row < 0 ∨ row ≥ (m.rows : Int) ∨ col < 0 ∨ col ≥ (m.cols : Int) then
    .error .indexOutOfRange
  else
    .ok (getCell m.data row.toNat col.toNat)

/-- Accessor `int& at(int row, int col)` used as an lvalue (write access): the same
bounds check, then `data[row][col] = v`. -/
def Matrix.atSet (m : Matrix) (row col : Int) (v : Int) : Except MatrixError Matrix :=
  if row < 0 ∨ row ≥ (m.rows : Int) ∨ col < 0 ∨ col ≥ (m.cols : Int) then
    .error .indexOutOfRange
  else
    .ok { m with data := setCell m.data row.toNat col.toNat v }

/-- One row of `fill_increment_value`: the inner loop
`for (j = 0; j < cols; ++j) data[i][j] = dis(gen);` on state
`(data, draw counter)`. -/
def fillRow (gen : Nat → Nat) (C i : Nat) (s : List (List Int) × Nat) :
    List (List Int) × Nat :=
  (List.range C).foldl (fun s j => (setCell s.1 i j (1 + (gen s.2 : Int) % 10), s.2 + 1)) s

/-- Method `void fill_increment_value()`: the double loop
`data[i][j] = dis(gen)`, with the t-th draw of
`uniform_int_distribution<>(1, 10)` applied to generator `gen` modelled as
`1 + gen t % 10`.  The counter `t` advances by one per draw. -/
def Matrix.fill_increment_value (m : Matrix) (gen : Nat → Nat) : Matrix :=
  { m with
    data := ((List.range m.rows).foldl (fun s i => fillRow gen m.cols i s) (m.data, 0)).1 }

/-- The innermost loop shared verbatim by `multiply` and
`multiplyParallel`:
`for (k = 0; k < this->cols; ++k) result.data[i][j] += this->data[i][k] * other.data[k][j];`
with `int` arithmetic wrapped at 32 bits. -/
def innerLoop (a b : Matrix) (i j : Nat) (d : List (List Int)) : List (List Int) :=
  (List.range a.cols).foldl (fun d k =>
    setCell d i j (wrap32 (getCell d i j + wrap32 (a.get i k * b.get k j)))) d

/-- Method `Matrix multiply(const Matrix& other)`: dimension check, then the
triple loop over `result`. -/
def Matrix.multiply (a b : Matrix) : Except MatrixError Matrix :=
  if a.cols ≠ b.rows then .error .dimensionMismatch
  else
    .ok ⟨a.rows, b.cols,
      (List.range a.rows).foldl (fun d i =>
        (List.range b.cols).foldl (fun d j => innerLoop a b i j d) d)
        (Matrix.construct a.rows b.cols).data⟩

/-- The chunk size `elements_per_thread = this->rows * other.cols / num_threads`
(C++ `int` division; both operands are nonnegative whenever the value is
used, so it coincides with `Nat` division). -/
def elementsPerThread (total n : Nat) : Nat := total / n

/-- The lower bound `start = i * elements_per_thread` of worker `i`. -/
def workerStart (total n i : Nat) : Nat := i * elementsPerThread total n

/-- The upper bound `end = (i == num_threads - 1) ? total : (i + 1) * elements_per_thread`
for worker `i`. -/
def workerStop (total n i : Nat) : Nat :=
  if i = n - 1 then total else (i + 1) * elementsPerThread total n

/-- Method `Matrix multiplyParallel(const Matrix& other, int num_threads)`:
dimension check, then one worker per `i < num_threads` processing the
flattened output indices `start ≤ index < end` with
`row = index / other.cols`, `col = index % other.cols`.  Workers write
disjoint cells, so their concurrent execution is modelled sequentially.
For `num_threads ≤ 0` the C++ thread loop body never runs; for
`num_threads = 0` the prior division `total / 0` is undefined behaviour,
marked here as an explicit error. -/
def Matrix.multiplyParallel (a b : Matrix) (numThreads : Int) : Except MatrixError Matrix :=
  if a.cols ≠ b.rows then .error .dimensionMismatch
  else if numThreads = 0 then .error .undefinedBehavior
  else
    .ok ⟨a.rows, b.cols,
      (List.range numThreads.toNat).foldl (fun d i =>
        (List.range' (workerStart (a.rows * b.cols) numThreads.toNat i)
            (workerStop (a.rows * b.cols) numThreads.toNat i -
              workerStart (a.rows * b.cols) numThreads.toNat i)).foldl
          (fun d index => innerLoop a b (index / b.cols) (index % b.cols) d) d)
        (Matrix.construct a.rows b.cols).data⟩

/-- Storage shape: `d` has exactly `R` rows, each of exactly `C` cells. -/
def Shape (d : List (List Int)) (R C : Nat) : Prop :=
  d.length = R ∧ ∀ r ∈ d, r.length = C

instance (d : List (List Int)) (R C : Nat) : Decidable (Shape d R C) :=
  inferInstanceAs (Decidable (_ ∧ _))

/-- The class invariant of §3: `cells` always has exactly `rowCount` rows
and `colCount` columns. -/
def Matrix.WF (m : Matrix) : Prop := Shape m.data m.rows m.cols

instance (m : Matrix) : Decidable m.WF := inferInstanceAs (Decidable (Shape _ _ _))

/-- Matrix values reachable through the public operations. -/
inductive Reachable : Matrix → Prop where
  | construct (r c : Nat) : Reachable (Matrix.construct r c)
  | fill (m : Matrix) (g : Nat → Nat) : Reachable m → Reachable (m.fill_increment_value g)
  | set (m : Matrix) (i j v : Int) (m' : Matrix) :
      Reachable m → m.atSet i j v = .ok m' → Reachable m'
  | mul (a b c : Matrix) : Reachable a → Reachable b → a.multiply b = .ok c → Reachable c
  | mulPar (a b c : Matrix) (n : Int) :
      Reachable a → Reachable b → a.multiplyParallel b n = .ok c → Reachable c

/-! ## Basic lemmas: wrap-around arithmetic -/

theorem wrap32_congr {a b : Int} (h : a % 2 ^ 32 = b % 2 ^ 32) : wrap32 a = wrap32 b := by
  unfold wrap32
  rw [Int.add_emod a, Int.add_emod b, h]

theorem wrap32_emod (a : Int) : wrap32 a % 2 ^ 32 = a % 2 ^ 32 := by
  unfold wrap32
  rw [Int.sub_emod, Int.emod_emod_of_dvd _ (dvd_refl _), ← Int.sub_emod,
    add_sub_cancel_right]

theorem wrap32_add_left (a b : Int) : wrap32 (wrap32 a + b) = wrap32 (a + b) := by
  apply wrap32_congr
  rw [Int.add_emod, wrap32_emod, ← Int.add_emod]

theorem wrap32_zero : wrap32 0 = 0 := by decide

theorem wrap32_add_right (a b : Int) : wrap32 (a + wrap32 b) = wrap32 (a + b) := by
  apply wrap32_congr
  rw [Int.add_emod, wrap32_emod, ← Int.add_emod]

/-! ## Basic lemmas: cell reads and writes -/

theorem length_setCell (d : List (List Int)) (i j : Nat) (v : Int) :
    (setCell d i j v).length = d.length := by
  simp [setCell]

theorem getCell_setCell_same (d : List (List Int)) {i j : Nat} (v : Int)
    (hi : i < d.length) (hj : j < (d.getD i []).length) :
    getCell (setCell d i j v) i j = v := by
  unfold getCell setCell
  simp only [List.getD_eq_getElem?_getD] at hj ⊢
  rw [List.getElem?_set_self hi]
  simp only [Option.getD_some]
  rw [List.getElem?_set_self hj]
  rfl

theorem getCell_setCell_other (d : List (List Int)) {i j i' j' : Nat} (v : Int)
    (h : i' ≠ i ∨ j' ≠ j) :
    getCell (setCell d i j v) i' j' = getCell d i' j' := by
  unfold getCell setCell
  simp only [List.getD_eq_getElem?_getD]
  rcases h with h | h
  · rw [List.getElem?_set_ne (Ne.symm h)]
  · by_cases hii : i' = i
    · subst hii
      by_cases hlen : i' < d.length
      · rw [List.getElem?_set_self hlen]
        simp only [Option.getD_some]
        rw [List.getElem?_set_ne (Ne.symm h)]
      · rw [List.set_eq_of_length_le (Nat.le_of_not_lt hlen)]
    · rw [List.getElem?_set_ne (Ne.symm hii)]

theorem shape_row_length {d : List (List Int)} {R C : Nat} (hd : Shape d R C)
    {i : Nat} (hi : i < R) : (d.getD i []).length = C := by
  obtain ⟨hlen, hrows⟩ := hd
  have hi' : i < d.length := by rw [hlen]; exact hi
  rw [List.getD_eq_getElem?_getD, List.getElem?_eq_getElem hi']
  exact hrows _ (List.getElem_mem hi')

theorem shape_setCell {d : List (List Int)} {R C : Nat} (hd : Shape d R C)
    (i j : Nat) (v : Int) : Shape (setCell d i j v) R C := by
  by_cases hi : i < d.length
  · obtain ⟨hlen, hrows⟩ := hd
    refine ⟨by rw [length_setCell]; exact hlen, ?_⟩
    intro r hr
    rcases List.mem_or_eq_of_mem_set hr with hmem | heq
    · exact hrows r hmem
    · subst heq
      rw [List.length_set]
      exact shape_row_length ⟨hlen, hrows⟩ (hlen ▸ hi)
  · unfold setCell
    rw [List.set_eq_of_length_le (Nat.le_of_not_lt hi)]
    exact hd

theorem shape_construct (r c : Nat) : Shape (Matrix.construct r c).data r c := by
  refine ⟨by simp [Matrix.construct], ?_⟩
  intro row hrow
  rcases List.mem_replicate.mp hrow with ⟨-, rfl⟩
  simp

theorem getCell_construct (r c : Nat) (i j : Nat) :
    getCell (Matrix.construct r c).data i j = 0 := by
  unfold getCell Matrix.construct
  simp only [List.getD_eq_getElem?_getD, List.getElem?_replicate]
  split
  · simp only [Option.getD_some, List.getElem?_replicate]
    split <;> rfl
  · rfl

/-! ## Fold helpers -/

theorem foldl_preserves {α β : Type} (P : α → Prop) (f : α → β → α) :
    ∀ (L : List β) (a : α), P a → (∀ a x, x ∈ L → P a → P (f a x)) → P (L.foldl f a) := by
  intro L
  induction L with
  | nil => intro a ha _; exact ha
  | cons x tl ih =>
      intro a ha hstep
      exact ih _ (hstep a x (List.mem_cons_self x tl) ha)
        (fun a y hy => hstep a y (List.mem_cons_of_mem x hy))

theorem foldl_flatMap {α β γ : Type} (g : α → List β) (f : γ → β → γ) :
    ∀ (l : List α) (init : γ),
      (l.flatMap g).foldl f init = l.foldl (fun acc x => (g x).foldl f acc) init := by
  intro l
  induction l with
  | nil => intro init; rfl
  | cons x tl ih =>
      intro init
      simp only [List.flatMap_cons, List.foldl_append, List.foldl_cons]
      exact ih _

/-! ## The inner product loop -/

/-- The value computed in cell `(i, j)` by the `k`-loop, starting from
accumulator `v`: the C++ `result.data[i][j]` after
`for k: result.data[i][j] += this->data[i][k] * other.data[k][j]`. -/
def dotFrom (a b : Matrix) (i j : Nat) (v : Int) : Int :=
  (List.range a.cols).foldl (fun v k => wrap32 (v + wrap32 (a.get i k * b.get k j))) v

theorem shape_innerLoop (a b : Matrix) (i j : Nat) {d : List (List Int)} {R C : Nat}
    (hd : Shape d R C) : Shape (innerLoop a b i j d) R C := by
  unfold innerLoop
  exact foldl_preserves (fun d' => Shape d' R C) _ _ _ hd
    (fun d' k _ hd' => shape_setCell hd' i j _)

theorem getCell_innerLoop_other (a b : Matrix) (i j : Nat) (d : List (List Int))
    {i' j' : Nat} (h : i' ≠ i ∨ j' ≠ j) :
    getCell (innerLoop a b i j d) i' j' = getCell d i' j' := by
  unfold innerLoop
  exact foldl_preserves (fun d' => getCell d' i' j' = getCell d i' j') _ _ _ rfl
    (fun d' k _ hd' => (getCell_setCell_other d' _ h).trans hd')

theorem innerFold_char (a b : Matrix) (i j : Nat) {R C : Nat} :
    ∀ (L : List Nat) (d : List (List Int)), Shape d R C → i < R → j < C →
      getCell (L.foldl (fun d k =>
          setCell d i j (wrap32 (getCell d i j + wrap32 (a.get i k * b.get k j)))) d) i j
        = L.foldl (fun v k => wrap32 (v + wrap32 (a.get i k * b.get k j))) (getCell d i j) := by
  intro L
  induction L with
  | nil => intro d _ _ _; rfl
  | cons x tl ih =>
      intro d hd hi hj
      simp only [List.foldl_cons]
      rw [ih _ (shape_setCell hd i j _) hi hj]
      congr 1
      exact getCell_setCell_same d _ (hd.1 ▸ hi)
        (by rw [shape_row_length hd hi]; exact hj)

theorem getCell_innerLoop_self (a b : Matrix) {i j : Nat} {d : List (List Int)} {R C : Nat}
    (hd : Shape d R C) (hi : i < R) (hj : j < C) :
    getCell (innerLoop a b i j d) i j = dotFrom a b i j (getCell d i j) :=
  innerFold_char a b i j _ d hd hi hj

/-! ## Folds over lists of output cells -/

/-- Processing a list of output cells `(i, j)`, running the full inner
`k`-loop for each.  Both `multiply` (row-major double loop) and
`multiplyParallel` (per-worker flattened index ranges) are folds of this
form. -/
def taskFold (a b : Matrix) (ts : List (Nat × Nat)) (d : List (List Int)) :
    List (List Int) :=
  ts.foldl (fun d p => innerLoop a b p.1 p.2 d) d

theorem shape_taskFold (a b : Matrix) (ts : List (Nat × Nat)) {d : List (List Int)}
    {R C : Nat} (hd : Shape d R C) : Shape (taskFold a b ts d) R C := by
  unfold taskFold
  exact foldl_preserves (fun d' => Shape d' R C) _ _ _ hd
    (fun d' p _ hd' => shape_innerLoop a b p.1 p.2 hd')

theorem taskFold_char (a b : Matrix) {R C : Nat} :
    ∀ (ts : List (Nat × Nat)) (d : List (List Int)), Shape d R C →
      (∀ p ∈ ts, p.1 < R ∧ p.2 < C) → ts.Nodup →
      ∀ i j, i < R → j < C →
        getCell (taskFold a b ts d) i j =
          if (i, j) ∈ ts then dotFrom a b i j (getCell d i j) else getCell d i j := by
  intro ts
  induction ts with
  | nil =>
      intro d _ _ _ i j _ _
      simp [taskFold]
  | cons p tl ih =>
      intro d hd hts hnd i j hi hj
      have hd' : Shape (innerLoop a b p.1 p.2 d) R C := shape_innerLoop a b p.1 p.2 hd
      have htl : ∀ q ∈ tl, q.1 < R ∧ q.2 < C :=
        fun q hq => hts q (List.mem_cons_of_mem p hq)
      have step : taskFold a b (p :: tl) d = taskFold a b tl (innerLoop a b p.1 p.2 d) := rfl
      rw [step, ih _ hd' htl (List.Nodup.of_cons hnd) i j hi hj]
      by_cases hp : (i, j) = p
      · have hpmem : (i, j) ∈ p :: tl := by rw [hp]; exact List.mem_cons_self p tl
        have hnotl : (i, j) ∉ tl := by
          rw [hp]; exact (List.nodup_cons.mp hnd).1
        rw [if_neg hnotl, if_pos hpmem]
        have hip : i = p.1 := by rw [← hp]
        have hjp : j = p.2 := by rw [← hp]
        subst hip; subst hjp
        exact getCell_innerLoop_self a b hd hi hj
      · have hne : i ≠ p.1 ∨ j ≠ p.2 := by
          by_contra hcon
          push_neg at hcon
          exact hp (Prod.ext hcon.1 hcon.2)
        rw [getCell_innerLoop_other a b p.1 p.2 d hne]
        have hmem : ((i, j) ∈ p :: tl) ↔ ((i, j) ∈ tl) := by
          constructor
          · intro hm
            rcases List.mem_cons.mp hm with hm | hm
            · exact absurd hm hp
            · exact hm
          · exact List.mem_cons_of_mem p
        by_cases htlm : (i, j) ∈ tl
        · rw [if_pos htlm, if_pos (hmem.mpr htlm)]
        · rw [if_neg htlm, if_neg (fun hc => htlm (hmem.mp hc))]

/-! ## The iteration orders of the two multiplications -/

/-- The output cells in row-major order: the iteration order of
`multiply`'s outer two loops. -/
def pairsLex (R C : Nat) : List (Nat × Nat) :=
  (List.range R).flatMap (fun i => (List.range C).map (fun j => (i, j)))

theorem mem_pairsLex {R C i j : Nat} : (i, j) ∈ pairsLex R C ↔ i < R ∧ j < C := by
  simp only [pairsLex, List.mem_flatMap, List.mem_map, List.mem_range, Prod.mk.injEq]
  constructor
  · rintro ⟨i', hi', j', hj', rfl, rfl⟩
    exact ⟨hi', hj'⟩
  · rintro ⟨hi, hj⟩
    exact ⟨i, hi, j, hj, rfl, rfl⟩

theorem nodup_pairsLex (R C : Nat) : (pairsLex R C).Nodup := by
  induction R with
  | zero => simp [pairsLex]
  | succ R ih =>
      unfold pairsLex
      rw [List.range_succ, List.flatMap_append]
      refine List.Nodup.append ih ?_ ?_
      · simp only [List.flatMap_cons, List.flatMap_nil, List.append_nil]
        exact List.Nodup.map (fun x y hxy => (Prod.mk.injEq _ _ _ _ ▸ hxy).2)
          (List.nodup_range C)
      · intro p hp hp'
        have h1 : p.1 < R := by
          rcases List.mem_flatMap.mp hp with ⟨i', hi', hmem⟩
          rcases List.mem_map.mp hmem with ⟨j', _, rfl⟩
          exact List.mem_range.mp hi'
        have h2 : p.1 = R := by
          simp only [List.flatMap_cons, List.flatMap_nil, List.append_nil] at hp'
          rcases List.mem_map.mp hp' with ⟨j', _, rfl⟩
          rfl
        omega

theorem multiply_eq_taskFold (a b : Matrix) (h : a.cols = b.rows) :
    a.multiply b = .ok ⟨a.rows, b.cols,
      taskFold a b (pairsLex a.rows b.cols) (Matrix.construct a.rows b.cols).data⟩ := by
  unfold Matrix.multiply
  rw [if_neg (fun hc => hc h)]
  unfold taskFold pairsLex
  rw [foldl_flatMap]
  simp only [List.foldl_map]

/-- The concatenation, in worker order, of the index ranges the workers
of `multiplyParallel` process. -/
def flattenWorkers (total n : Nat) : List Nat :=
  (List.range n).flatMap (fun i =>
    List.range' (workerStart total n i) (workerStop total n i - workerStart total n i))

theorem multiplyParallel_eq_taskFold (a b : Matrix) (n : Int) (h : a.cols = b.rows)
    (hn : n ≠ 0) :
    a.multiplyParallel b n = .ok ⟨a.rows, b.cols,
      taskFold a b
        ((flattenWorkers (a.rows * b.cols) n.toNat).map (fun idx => (idx / b.cols, idx % b.cols)))
        (Matrix.construct a.rows b.cols).data⟩ := by
  unfold Matrix.multiplyParallel
  rw [if_neg (fun hc => hc h), if_neg hn]
  unfold taskFold flattenWorkers
  rw [List.foldl_map, foldl_flatMap]

theorem workerStart_le_stop {total n : Nat} (hn : 1 ≤ n) {i : Nat} (hi : i < n) :
    workerStart total n i ≤ workerStop total n i := by
  unfold workerStart workerStop elementsPerThread
  by_cases hlast : i = n - 1
  · rw [if_pos hlast, hlast]
    calc (n - 1) * (total / n) ≤ n * (total / n) :=
          Nat.mul_le_mul_right _ (Nat.sub_le n 1)
    _ = total / n * n := Nat.mul_comm _ _
    _ ≤ total := Nat.div_mul_le_self total n
  · rw [if_neg hlast]
    exact Nat.mul_le_mul_right _ (Nat.le_succ i)

theorem sizeWorker_of_ne_last {total n i : Nat} (hlast : i ≠ n - 1) :
    workerStop total n i - workerStart total n i = total / n := by
  unfold workerStart workerStop elementsPerThread
  rw [if_neg hlast, Nat.succ_mul, Nat.add_sub_cancel_left]

theorem flattenWorkers_prefix (total n : Nat) (hn : 1 ≤ n) :
    ∀ m, m ≤ n - 1 →
      (List.range m).flatMap (fun i =>
          List.range' (workerStart total n i) (workerStop total n i - workerStart total n i))
        = List.range' 0 (m * (total / n)) := by
  intro m
  induction m with
  | zero => intro _; simp
  | succ m ih =>
      intro hm
      rw [List.range_succ, List.flatMap_append, ih (Nat.le_of_succ_le hm)]
      simp only [List.flatMap_cons, List.flatMap_nil, List.append_nil]
      have hmne : m ≠ n - 1 := by omega
      rw [sizeWorker_of_ne_last hmne]
      unfold workerStart elementsPerThread
      have := List.range'_append 0 (m * (total / n)) (total / n) 1
      simp only [Nat.one_mul, Nat.zero_add] at this
      rw [this, Nat.succ_mul, Nat.add_comm (total / n)]

theorem flattenWorkers_eq_range (total n : Nat) (hn : 1 ≤ n) :
    flattenWorkers total n = List.range total := by
  unfold flattenWorkers
  have hr : List.range n = List.range (n - 1) ++ [n - 1] := by
    conv_lhs => rw [show n = (n - 1) + 1 by omega]
    rw [List.range_succ]
  rw [hr, List.flatMap_append,
    flattenWorkers_prefix total n hn (n - 1) (by omega)]
  simp only [List.flatMap_cons, List.flatMap_nil, List.append_nil]
  have hstart : workerStart total n (n - 1) = (n - 1) * (total / n) := rfl
  have hstop : workerStop total n (n - 1) = total := by
    unfold workerStop
    rw [if_pos rfl]
  rw [hstart, hstop]
  have hle : (n - 1) * (total / n) ≤ total := by
    calc (n - 1) * (total / n) ≤ n * (total / n) :=
          Nat.mul_le_mul_right _ (Nat.sub_le n 1)
    _ = total / n * n := Nat.mul_comm _ _
    _ ≤ total := Nat.div_mul_le_self total n
  have := List.range'_append 0 ((n - 1) * (total / n)) (total - (n - 1) * (total / n)) 1
  simp only [Nat.one_mul, Nat.zero_add] at this
  rw [this, Nat.sub_add_cancel hle, List.range_eq_range']

theorem range_map_decode (R C : Nat) :
    (List.range (R * C)).map (fun idx => (idx / C, idx % C)) = pairsLex R C := by
  by_cases hC : C = 0
  · subst hC
    simp [pairsLex]
  · induction R with
    | zero => simp [pairsLex]
    | succ R ih =>
        rw [Nat.succ_mul, List.range_add, List.map_append, ih]
        unfold pairsLex
        rw [List.range_succ, List.flatMap_append]
        congr 1
        simp only [List.flatMap_cons, List.flatMap_nil, List.append_nil, List.map_map]
        apply List.map_congr_left
        intro j hj
        have hjC : j < C := List.mem_range.mp hj
        simp only [Function.comp_apply]
        have hdiv : (R * C + j) / C = R := by
          rw [Nat.add_comm (R * C) j, Nat.add_mul_div_right j R (Nat.pos_of_ne_zero hC),
            Nat.div_eq_of_lt hjC, Nat.zero_add]
        have hmod : (R * C + j) % C = j := by
          rw [Nat.add_comm (R * C) j, Nat.add_mul_mod_self_right,
            Nat.mod_eq_of_lt hjC]
        rw [hdiv, hmod]

/-- The central equivalence: for `numThreads ≥ 1` the parallel multiply
computes exactly the sequential multiply (same `Except` value). -/
theorem multiplyParallel_eq_multiply (a b : Matrix) (n : Int) (hn : 1 ≤ n) :
    a.multiplyParallel b n = a.multiply b := by
  by_cases h : a.cols = b.rows
  · rw [multiply_eq_taskFold a b h, multiplyParallel_eq_taskFold a b n h (by omega)]
    rw [flattenWorkers_eq_range _ _ (by omega), range_map_decode]
  · unfold Matrix.multiply Matrix.multiplyParallel
    rw [if_pos h, if_pos h]

/-! ## The accumulated inner product as a wrapped mathematical sum -/

theorem wrapFold (f : Nat → Int) :
    ∀ (L : List Nat) (s : Int),
      L.foldl (fun v k => wrap32 (v + wrap32 (f k))) (wrap32 s) = wrap32 (s + (L.map f).sum) := by
  intro L
  induction L with
  | nil => intro s; rw [List.map_nil, List.sum_nil, add_zero]; rfl
  | cons x tl ih =>
      intro s
      rw [List.foldl_cons, wrap32_add_left, wrap32_add_right, ih (s + f x),
        List.map_cons, List.sum_cons, add_assoc]

theorem dotFrom_zero_eq (a b : Matrix) (i j : Nat) :
    dotFrom a b i j 0 =
      wrap32 (((List.range a.cols).map (fun k => a.get i k * b.get k j)).sum) := by
  unfold dotFrom
  rw [← wrap32_zero, wrapFold (fun k => a.get i k * b.get k j) (List.range a.cols) 0,
    zero_add]

/-- Full characterisation of `multiply` on matching shapes: the result is
`a.rows × b.cols`, well-formed, and cell `(i, j)` holds the wrapped inner
product. -/
theorem multiply_char (a b : Matrix) (h : a.cols = b.rows) {c : Matrix}
    (hc : a.multiply b = .ok c) :
    c.rows = a.rows ∧ c.cols = b.cols ∧ c.WF ∧
      ∀ i j, i < a.rows → j < b.cols →
        c.get i j =
          wrap32 (((List.range a.cols).map (fun k => a.get i k * b.get k j)).sum) := by
  rw [multiply_eq_taskFold a b h] at hc
  obtain rfl : c = _ := (Except.ok.inj hc).symm
  refine ⟨rfl, rfl, shape_taskFold a b _ (shape_construct a.rows b.cols), ?_⟩
  intro i j hi hj
  show getCell (taskFold a b (pairsLex a.rows b.cols) (Matrix.construct a.rows b.cols).data) i j = _
  rw [taskFold_char a b (pairsLex a.rows b.cols) _ (shape_construct a.rows b.cols)
      (fun p hp => by rcases p with ⟨pi, pj⟩; exact mem_pairsLex.mp hp)
      (nodup_pairsLex a.rows b.cols) i j hi hj,
    if_pos (mem_pairsLex.mpr ⟨hi, hj⟩), getCell_construct, dotFrom_zero_eq]

/-! ## Partition coverage -/

theorem workerStop_le_start_of_lt {total n i j : Nat} (hij : i < j) (hj : j < n) :
    workerStop total n i ≤ workerStart total n j := by
  have hine : i ≠ n - 1 := by omega
  unfold workerStop workerStart elementsPerThread
  rw [if_neg hine]
  exact Nat.mul_le_mul_right _ hij

theorem worker_mem_iff {total n : Nat} (hn : 1 ≤ n) {idx : Nat} {i : Nat} (hi : i < n) :
    idx ∈ List.range' (workerStart total n i) (workerStop total n i - workerStart total n i)
      ↔ workerStart total n i ≤ idx ∧ idx < workerStop total n i := by
  rw [List.mem_range'_1, Nat.add_sub_cancel' (workerStart_le_stop hn hi)]

theorem worker_cover_unique (total n : Nat) (hn : 1 ≤ n) (idx : Nat) (hidx : idx < total) :
    ∃! i, i < n ∧ workerStart total n i ≤ idx ∧ idx < workerStop total n i := by
  have hmem : idx ∈ flattenWorkers total n := by
    rw [flattenWorkers_eq_range total n hn, List.mem_range]
    exact hidx
  rcases List.mem_flatMap.mp hmem with ⟨i, hiL, hmem'⟩
  have hi : i < n := List.mem_range.mp hiL
  refine ⟨i, ⟨hi, (worker_mem_iff hn hi).mp hmem'⟩, ?_⟩
  rintro i' ⟨hi', hlo', hhi'⟩
  obtain ⟨hlo, hhi⟩ := (worker_mem_iff hn hi).mp hmem'
  by_contra hne
  rcases Nat.lt_or_ge i' i with hlt | hge
  · have := @workerStop_le_start_of_lt total n i' i hlt hi
    omega
  · have hlt : i < i' := by omega
    have := @workerStop_le_start_of_lt total n i i' hlt hi'
    omega

/-! ## The random fill -/

theorem fillRow_char (gen : Nat → Nat) (i : Nat) {R C : Nat} :
    ∀ (L : List Nat) (s : List (List Int) × Nat), Shape s.1 R C →
      Shape (L.foldl (fun s j => (setCell s.1 i j (1 + (gen s.2 : Int) % 10), s.2 + 1)) s).1 R C ∧
      (∀ i' j', i' ≠ i ∨ j' ∉ L →
        getCell (L.foldl (fun s j => (setCell s.1 i j (1 + (gen s.2 : Int) % 10), s.2 + 1)) s).1 i' j'
          = getCell s.1 i' j') ∧
      (i < R → ∀ j, j ∈ L → j < C →
        1 ≤ getCell (L.foldl (fun s j => (setCell s.1 i j (1 + (gen s.2 : Int) % 10), s.2 + 1)) s).1 i j ∧
        getCell (L.foldl (fun s j => (setCell s.1 i j (1 + (gen s.2 : Int) % 10), s.2 + 1)) s).1 i j ≤ 10) := by
  intro L
  induction L with
  | nil =>
      intro s hs
      exact ⟨hs, fun i' j' _ => rfl, fun _ j hj => absurd hj (List.not_mem_nil j)⟩
  | cons x tl ih =>
      intro s hs
      simp only [List.foldl_cons]
      have hs' : Shape (setCell s.1 i x (1 + (gen s.2 : Int) % 10)) R C :=
        shape_setCell hs i x _
      obtain ⟨ihShape, ihOther, ihBound⟩ :=
        ih (setCell s.1 i x (1 + (gen s.2 : Int) % 10), s.2 + 1) hs'
      refine ⟨ihShape, ?_, ?_⟩
      · intro i' j' hij
        have hnot : i' ≠ i ∨ j' ∉ tl := by
          rcases hij with h | h
          · exact Or.inl h
          · exact Or.inr (fun hc => h (List.mem_cons_of_mem x hc))
        rw [ihOther i' j' hnot]
        have hne : i' ≠ i ∨ j' ≠ x := by
          rcases hij with h | h
          · exact Or.inl h
          · exact Or.inr (fun hc => h (hc ▸ List.mem_cons_self x tl))
        exact getCell_setCell_other s.1 _ hne
      · intro hiR j hj hjC
        by_cases hjtl : j ∈ tl
        · exact ihBound hiR j hjtl hjC
        · have hjx : j = x := by
            rcases List.mem_cons.mp hj with h | h
            · exact h
            · exact absurd h hjtl
          subst hjx
          rw [ihOther i j (Or.inr hjtl),
            getCell_setCell_same s.1 _ (hs.1 ▸ hiR) (by rw [shape_row_length hs hiR]; exact hjC)]
          have h1 : 0 ≤ (gen s.2 : Int) % 10 := Int.emod_nonneg _ (by norm_num)
          have h2 : (gen s.2 : Int) % 10 < 10 := Int.emod_lt_of_pos _ (by norm_num)
          omega

theorem fillRow_shape (gen : Nat → Nat) {C i : Nat} {s : List (List Int) × Nat}
    {R C' : Nat} (hs : Shape s.1 R C') : Shape (fillRow gen C i s).1 R C' := by
  unfold fillRow
  exact (fillRow_char gen i (List.range C) s hs).1

theorem fill_char (gen : Nat → Nat) {R C : Nat} :
    ∀ (M : List Nat) (s : List (List Int) × Nat), Shape s.1 R C →
      Shape (M.foldl (fun s i => fillRow gen C i s) s).1 R C ∧
      (∀ i' j', i' ∉ M →
        getCell (M.foldl (fun s i => fillRow gen C i s) s).1 i' j' = getCell s.1 i' j') ∧
      (∀ i ∈ M, i < R → ∀ j, j < C →
        1 ≤ getCell (M.foldl (fun s i => fillRow gen C i s) s).1 i j ∧
        getCell (M.foldl (fun s i => fillRow gen C i s) s).1 i j ≤ 10) := by
  intro M
  induction M with
  | nil =>
      intro s hs
      exact ⟨hs, fun i' j' _ => rfl, fun i hi => absurd hi (List.not_mem_nil i)⟩
  | cons x tl ih =>
      intro s hs
      simp only [List.foldl_cons]
      obtain ⟨rowShape, rowOther, rowBound⟩ := fillRow_char gen x (List.range C) s hs
      obtain ⟨ihShape, ihOther, ihBound⟩ := ih (fillRow gen C x s) (fillRow_shape gen hs)
      refine ⟨ihShape, ?_, ?_⟩
      · intro i' j' hi'
        have hi'tl : i' ∉ tl := fun hc => hi' (List.mem_cons_of_mem x hc)
        have hi'x : i' ≠ x := fun hc => hi' (hc ▸ List.mem_cons_self x tl)
        rw [ihOther i' j' hi'tl]
        exact rowOther i' j' (Or.inl hi'x)
      · intro i hi hiR j hjC
        by_cases hitl : i ∈ tl
        · exact ihBound i hitl hiR j hjC
        · have hix : i = x := by
            rcases List.mem_cons.mp hi with h | h
            · exact h
            · exact absurd h hitl
          subst hix
          rw [ihOther i j hitl]
          exact rowBound hiR j (List.mem_range.mpr hjC) hjC

/-- Filling preserves: `fill_increment_value` preserves the dimensions and shape and leaves
every cell in `[1, 10]`, whatever the generator draws. -/
theorem fill_result (m : Matrix) (gen : Nat → Nat) (h : m.WF) :
    (m.fill_increment_value gen).rows = m.rows ∧
    (m.fill_increment_value gen).cols = m.cols ∧
    (m.fill_increment_value gen).WF ∧
    ∀ i j, i < m.rows → j < m.cols →
      1 ≤ (m.fill_increment_value gen).get i j ∧
      (m.fill_increment_value gen).get i j ≤ 10 := by
  obtain ⟨hShape, -, hBound⟩ := fill_char gen (List.range m.rows) (m.data, 0) h
  refine ⟨rfl, rfl, hShape, ?_⟩
  intro i j hi hj
  exact hBound i (List.mem_range.mpr hi) hi j hj

/-! ## Well-formedness of every reachable matrix -/

theorem construct_WF (r c : Nat) : (Matrix.construct r c).WF := shape_construct r c

theorem multiply_ok_dims {a b c : Matrix} (hc : a.multiply b = .ok c) :
    a.cols = b.rows := by
  by_contra h
  unfold Matrix.multiply at hc
  rw [if_pos h] at hc
  exact Except.noConfusion hc

theorem multiply_ok_WF {a b c : Matrix} (hc : a.multiply b = .ok c) : c.WF := by
  have h := multiply_ok_dims hc
  rw [multiply_eq_taskFold a b h] at hc
  obtain rfl : c = _ := (Except.ok.inj hc).symm
  exact shape_taskFold a b _ (shape_construct a.rows b.cols)

theorem multiplyParallel_ok_dims {a b c : Matrix} {n : Int}
    (hc : a.multiplyParallel b n = .ok c) : a.cols = b.rows ∧ n ≠ 0 := by
  unfold Matrix.multiplyParallel at hc
  by_cases h : a.cols = b.rows
  · by_cases hn : n = 0
    · rw [if_neg (fun hh => hh h), if_pos hn] at hc
      exact Except.noConfusion hc
    · exact ⟨h, hn⟩
  · rw [if_pos h] at hc
    exact Except.noConfusion hc

theorem multiplyParallel_ok_WF {a b c : Matrix} {n : Int}
    (hc : a.multiplyParallel b n = .ok c) : c.WF := by
  obtain ⟨h, hn⟩ := multiplyParallel_ok_dims hc
  rw [multiplyParallel_eq_taskFold a b n h hn] at hc
  obtain rfl : c = _ := (Except.ok.inj hc).symm
  exact shape_taskFold a b _ (shape_construct a.rows b.cols)

theorem atSet_ok_WF {m m' : Matrix} {i j v : Int} (hm : m.WF)
    (h : m.atSet i j v = .ok m') : m'.WF := by
  unfold Matrix.atSet at h
  by_cases hb : i < 0 ∨ i ≥ (m.rows : Int) ∨ j < 0 ∨ j ≥ (m.cols : Int)
  · rw [if_pos hb] at h
    exact Except.noConfusion h
  · rw [if_neg hb] at h
    obtain rfl : m' = _ := (Except.ok.inj h).symm
    exact shape_setCell hm _ _ _

theorem fill_WF {m : Matrix} (gen : Nat → Nat) (hm : m.WF) :
    (m.fill_increment_value gen).WF :=
  (fill_result m gen hm).2.2.1

/-- Section 3 invariant: every matrix reachable through the public operations is
well-formed. -/
theorem reachable_WF : ∀ m : Matrix, Reachable m → m.WF := by
  intro m h
  induction h with
  | construct r c => exact construct_WF r c
  | fill m g _ ih => exact fill_WF g ih
  | set m i j v m' _ hok ih => exact atSet_ok_WF ih hok
  | mul a b c _ _ hok _ _ => exact multiply_ok_WF hok
  | mulPar a b c n _ _ hok _ _ => exact multiplyParallel_ok_WF hok

/-! ## Frame property: multiplication reads but never writes its inputs -/

/-- State-passing rendering of `multiply`: the machine state is the triple
`(this, other, result)`; every read of `this->data` / `other.data` goes
through the state, and every write targets `result.data` — exactly the
source's access pattern.  Used to state that the inputs come out of the
call unchanged. -/
def Matrix.multiplySt (a b : Matrix) : Except MatrixError (Matrix × Matrix × Matrix) :=
  if a.cols ≠ b.rows then .error .dimensionMismatch
  else
    .ok ((List.range a.rows).foldl (fun σ i =>
      (List.range σ.2.1.cols).foldl (fun σ j =>
        (List.range σ.1.cols).foldl (fun σ k =>
          (σ.1, σ.2.1, { σ.2.2 with data := (setCell σ.2.2.data i j
            (wrap32 (getCell σ.2.2.data i j + wrap32 (σ.1.get i k * σ.2.1.get k j)))) })) σ) σ)
      (a, b, Matrix.construct a.rows b.cols))

/-- State-passing rendering of `multiplyParallel`, with the workers'
effects composed in worker order (their writes are disjoint). -/
def Matrix.multiplyParallelSt (a b : Matrix) (numThreads : Int) :
    Except MatrixError (Matrix × Matrix × Matrix) :=
  if a.cols ≠ b.rows then .error .dimensionMismatch
  else if numThreads = 0 then .error .undefinedBehavior
  else
    .ok ((List.range numThreads.toNat).foldl (fun σ i =>
      (List.range' (workerStart (a.rows * b.cols) numThreads.toNat i)
          (workerStop (a.rows * b.cols) numThreads.toNat i -
            workerStart (a.rows * b.cols) numThreads.toNat i)).foldl
        (fun σ index =>
          (List.range σ.1.cols).foldl (fun σ k =>
            (σ.1, σ.2.1, { σ.2.2 with data := (setCell σ.2.2.data
              (index / σ.2.1.cols) (index % σ.2.1.cols)
              (wrap32 (getCell σ.2.2.data (index / σ.2.1.cols) (index % σ.2.1.cols) +
                wrap32 (σ.1.get (index / σ.2.1.cols) k * σ.2.1.get k (index % σ.2.1.cols))))) })) σ)
        σ)
      (a, b, Matrix.construct a.rows b.cols))

theorem multiplySt_inner (a0 b0 : Matrix) (i j : Nat) :
    ∀ (L : List Nat) (r0 : Matrix),
      L.foldl (fun σ k =>
          (σ.1, σ.2.1, { σ.2.2 with data := (setCell σ.2.2.data i j
            (wrap32 (getCell σ.2.2.data i j + wrap32 (σ.1.get i k * σ.2.1.get k j)))) }))
        ((a0, b0, r0) : Matrix × Matrix × Matrix)
      = (a0, b0, { r0 with data := (L.foldl (fun d k => setCell d i j
          (wrap32 (getCell d i j + wrap32 (a0.get i k * b0.get k j)))) r0.data) }) := by
  intro L
  induction L with
  | nil => intro r0; rfl
  | cons x tl ih =>
      intro r0
      simp only [List.foldl_cons]
      exact ih _

theorem multiplySt_mid (a0 b0 : Matrix) (i : Nat) :
    ∀ (L : List Nat) (r0 : Matrix),
      L.foldl (fun σ j =>
          (List.range σ.1.cols).foldl (fun σ k =>
            (σ.1, σ.2.1, { σ.2.2 with data := (setCell σ.2.2.data i j
              (wrap32 (getCell σ.2.2.data i j + wrap32 (σ.1.get i k * σ.2.1.get k j)))) })) σ)
        ((a0, b0, r0) : Matrix × Matrix × Matrix)
      = (a0, b0, { r0 with data := (L.foldl (fun d j => innerLoop a0 b0 i j d) r0.data) }) := by
  intro L
  induction L with
  | nil => intro r0; rfl
  | cons x tl ih =>
      intro r0
      simp only [List.foldl_cons]
      rw [multiplySt_inner a0 b0 i x (List.range a0.cols) r0]
      exact ih _

theorem multiplySt_outer (a0 b0 : Matrix) :
    ∀ (L : List Nat) (r0 : Matrix),
      L.foldl (fun σ i =>
          (List.range σ.2.1.cols).foldl (fun σ j =>
            (List.range σ.1.cols).foldl (fun σ k =>
              (σ.1, σ.2.1, { σ.2.2 with data := (setCell σ.2.2.data i j
                (wrap32 (getCell σ.2.2.data i j + wrap32 (σ.1.get i k * σ.2.1.get k j)))) })) σ) σ)
        ((a0, b0, r0) : Matrix × Matrix × Matrix)
      = (a0, b0, { r0 with data := (L.foldl (fun d i =>
          (List.range b0.cols).foldl (fun d j => innerLoop a0 b0 i j d) d) r0.data) }) := by
  intro L
  induction L with
  | nil => intro r0; rfl
  | cons x tl ih =>
      intro r0
      simp only [List.foldl_cons]
      rw [multiplySt_mid a0 b0 x (List.range b0.cols) r0]
      exact ih _

/-- The sequential multiply never mutates its operands: the final state
keeps `a` and `b` untouched, and the result component is exactly the
matrix `multiply` returns. -/
theorem multiplySt_frame (a b : Matrix) :
    a.multiplySt b = (a.multiply b).map (fun c => (a, b, c)) := by
  unfold Matrix.multiplySt Matrix.multiply
  by_cases h : a.cols ≠ b.rows
  · rw [if_pos h, if_pos h]
    rfl
  · rw [if_neg h, if_neg h]
    rw [multiplySt_outer a b (List.range a.rows) (Matrix.construct a.rows b.cols)]
    rfl

theorem multiplyParallelSt_inner (a0 b0 : Matrix) (index : Nat) :
    ∀ (L : List Nat) (r0 : Matrix),
      L.foldl (fun σ k =>
          (σ.1, σ.2.1, { σ.2.2 with data := (setCell σ.2.2.data
            (index / σ.2.1.cols) (index % σ.2.1.cols)
            (wrap32 (getCell σ.2.2.data (index / σ.2.1.cols) (index % σ.2.1.cols) +
              wrap32 (σ.1.get (index / σ.2.1.cols) k * σ.2.1.get k (index % σ.2.1.cols))))) }))
        ((a0, b0, r0) : Matrix × Matrix × Matrix)
      = (a0, b0, { r0 with data := (L.foldl (fun d k => setCell d
          (index / b0.cols) (index % b0.cols)
          (wrap32 (getCell d (index / b0.cols) (index % b0.cols) +
            wrap32 (a0.get (index / b0.cols) k * b0.get k (index % b0.cols))))) r0.data) }) := by
  intro L
  induction L with
  | nil => intro r0; rfl
  | cons x tl ih =>
      intro r0
      simp only [List.foldl_cons]
      exact ih _

theorem multiplyParallelSt_mid (a0 b0 : Matrix) :
    ∀ (L : List Nat) (r0 : Matrix),
      L.foldl (fun σ index =>
          (List.range σ.1.cols).foldl (fun σ k =>
            (σ.1, σ.2.1, { σ.2.2 with data := (setCell σ.2.2.data
              (index / σ.2.1.cols) (index % σ.2.1.cols)
              (wrap32 (getCell σ.2.2.data (index / σ.2.1.cols) (index % σ.2.1.cols) +
                wrap32 (σ.1.get (index / σ.2.1.cols) k * σ.2.1.get k (index % σ.2.1.cols))))) })) σ)
        ((a0, b0, r0) : Matrix × Matrix × Matrix)
      = (a0, b0, { r0 with data := (L.foldl (fun d index =>
          innerLoop a0 b0 (index / b0.cols) (index % b0.cols) d) r0.data) }) := by
  intro L
  induction L with
  | nil => intro r0; rfl
  | cons x tl ih =>
      intro r0
      simp only [List.foldl_cons]
      rw [multiplyParallelSt_inner a0 b0 x (List.range a0.cols) r0]
      exact ih _

theorem multiplyParallelSt_outer (a0 b0 : Matrix) (total n : Nat) :
    ∀ (L : List Nat) (r0 : Matrix),
      L.foldl (fun σ i =>
          (List.range' (workerStart total n i) (workerStop total n i - workerStart total n i)).foldl
            (fun σ index =>
              (List.range σ.1.cols).foldl (fun σ k =>
                (σ.1, σ.2.1, { σ.2.2 with data := (setCell σ.2.2.data
                  (index / σ.2.1.cols) (index % σ.2.1.cols)
                  (wrap32 (getCell σ.2.2.data (index / σ.2.1.cols) (index % σ.2.1.cols) +
                    wrap32 (σ.1.get (index / σ.2.1.cols) k * σ.2.1.get k (index % σ.2.1.cols))))) })) σ)
            σ)
        ((a0, b0, r0) : Matrix × Matrix × Matrix)
      = (a0, b0, { r0 with data := (L.foldl (fun d i =>
          (List.range' (workerStart total n i) (workerStop total n i - workerStart total n i)).foldl
            (fun d index => innerLoop a0 b0 (index / b0.cols) (index % b0.cols) d) d) r0.data) }) := by
  intro L
  induction L with
  | nil => intro r0; rfl
  | cons x tl ih =>
      intro r0
      simp only [List.foldl_cons]
      rw [multiplyParallelSt_mid a0 b0
        (List.range' (workerStart total n x) (workerStop total n x - workerStart total n x)) r0]
      exact ih _

/-- The parallel multiply never mutates its operands either. -/
theorem multiplyParallelSt_frame (a b : Matrix) (n : Int) :
    a.multiplyParallelSt b n = (a.multiplyParallel b n).map (fun c => (a, b, c)) := by
  unfold Matrix.multiplyParallelSt Matrix.multiplyParallel
  by_cases h : a.cols ≠ b.rows
  · rw [if_pos h, if_pos h]
    rfl
  · rw [if_neg h, if_neg h]
    by_cases hn : n = 0
    · rw [if_pos hn, if_pos hn]
      rfl
    · rw [if_neg hn, if_neg hn]
      rw [multiplyParallelSt_outer a b (a.rows * b.cols) n.toNat
        (List.range n.toNat) (Matrix.construct a.rows b.cols)]
      rfl

/-! ## The claims -/

/-- C1: for every pair of matrices `A`, `B` with `A.colCount = B.rowCount`
and every `workerCount ≥ 1`, `ParallelMultiply(A, B, workerCount)` returns
a matrix equal cell-for-cell (and in shape) to `SequentialMultiply(A, B)`:
both calls succeed and return the very same matrix value. -/
theorem claim_C1 (a b : Matrix) (n : Int) (h : a.cols = b.rows) (hn : 1 ≤ n) :
    ∃ c : Matrix, a.multiplyParallel b n = .ok c ∧ a.multiply b = .ok c := by
  rw [multiplyParallel_eq_multiply a b n hn, multiply_eq_taskFold a b h]
  exact ⟨_, rfl, rfl⟩

theorem claim_C1_witness :
    ((Matrix.mk 2 2 [[1, 2], [3, 4]]).cols = (Matrix.mk 2 2 [[5, 6], [7, 8]]).rows ∧
      (1 : Int) ≤ 3) ∧
    ∃ c : Matrix,
      (Matrix.mk 2 2 [[1, 2], [3, 4]]).multiplyParallel (Matrix.mk 2 2 [[5, 6], [7, 8]]) 3
        = .ok c ∧
      (Matrix.mk 2 2 [[1, 2], [3, 4]]).multiply (Matrix.mk 2 2 [[5, 6], [7, 8]]) = .ok c :=
  ⟨⟨rfl, by decide⟩,
    claim_C1 (Matrix.mk 2 2 [[1, 2], [3, 4]]) (Matrix.mk 2 2 [[5, 6], [7, 8]]) 3 rfl (by decide)⟩

/-- C2: on matching inner dimensions, `SequentialMultiply(A, B)` returns a
fresh `r1 × c2` matrix whose cell `(i, j)` is the inner product
`Σ_k A[i][k] * B[k][j]`, computed in 32-bit wrap-around integer
arithmetic with no overflow detection. -/
theorem claim_C2 (a b : Matrix) (h : a.cols = b.rows) :
    ∃ c : Matrix, a.multiply b = .ok c ∧
      c.rows = a.rows ∧ c.cols = b.cols ∧ c.WF ∧
      ∀ i j, i < a.rows → j < b.cols →
        c.get i j =
          wrap32 (((List.range a.cols).map (fun k => a.get i k * b.get k j)).sum) := by
  rw [multiply_eq_taskFold a b h]
  refine ⟨_, rfl, ?_⟩
  exact multiply_char a b h (multiply_eq_taskFold a b h)

theorem claim_C2_witness :
    (Matrix.mk 2 2 [[1, 2], [3, 4]]).cols = (Matrix.mk 2 2 [[5, 6], [7, 8]]).rows ∧
    ∃ c : Matrix,
      (Matrix.mk 2 2 [[1, 2], [3, 4]]).multiply (Matrix.mk 2 2 [[5, 6], [7, 8]]) = .ok c ∧
      c.rows = 2 ∧ c.cols = 2 ∧ c.WF ∧
      ∀ i j, i < 2 → j < 2 →
        c.get i j = wrap32 (((List.range 2).map (fun k =>
          (Matrix.mk 2 2 [[1, 2], [3, 4]]).get i k *
            (Matrix.mk 2 2 [[5, 6], [7, 8]]).get k j)).sum) :=
  ⟨rfl, claim_C2 (Matrix.mk 2 2 [[1, 2], [3, 4]]) (Matrix.mk 2 2 [[5, 6], [7, 8]]) rfl⟩

/-- C3: for every `rowCount`, `colCount` and `workerCount ≥ 1`, the
per-worker ranges over the flattened output index space are of size
`⌊total/workerCount⌋` for every worker but the last, which takes the
remainder; they are contiguous and cover every output index exactly once;
empty ranges (possible when `workerCount ≥ total`) contribute no work and
are not an error. -/
theorem claim_C3 (R C n : Nat) (hn : 1 ≤ n) :
    (∀ i, i ≠ n - 1 →
      workerStop (R * C) n i - workerStart (R * C) n i = R * C / n) ∧
    (workerStop (R * C) n (n - 1) - workerStart (R * C) n (n - 1)
      = R * C - (n - 1) * (R * C / n)) ∧
    (∀ i, i + 1 < n → workerStop (R * C) n i = workerStart (R * C) n (i + 1)) ∧
    (∀ idx, idx < R * C →
      ∃! i, i < n ∧ workerStart (R * C) n i ≤ idx ∧ idx < workerStop (R * C) n i) ∧
    (∀ i : Nat, workerStop (R * C) n i - workerStart (R * C) n i = 0 →
      List.range' (workerStart (R * C) n i)
        (workerStop (R * C) n i - workerStart (R * C) n i) = []) ∧
    (∀ a b : Matrix, a.rows = R → b.cols = C → a.cols = b.rows →
      ∃ c, a.multiplyParallel b (n : Int) = .ok c) := by
  refine ⟨fun i hi => sizeWorker_of_ne_last hi, ?_, ?_, worker_cover_unique (R * C) n hn, ?_, ?_⟩
  · unfold workerStop workerStart elementsPerThread
    rw [if_pos rfl]
  · intro i hi
    unfold workerStop workerStart elementsPerThread
    rw [if_neg (by omega)]
  · intro i h
    rw [h]
    rfl
  · intro a b ha hb hab
    subst ha; subst hb
    have hne : (n : Int) ≠ 0 := by
      intro hc
      omega
    exact ⟨_, multiplyParallel_eq_taskFold a b (n : Int) hab hne⟩

theorem claim_C3_witness :
    1 ≤ 2 ∧
    ∃! i, i < 2 ∧ workerStart (2 * 3) 2 i ≤ 4 ∧ 4 < workerStop (2 * 3) 2 i :=
  ⟨by decide, (claim_C3 2 3 2 (by decide)).2.2.2.1 4 (by decide)⟩

/-- C4: both multiplications fail with the dimension-mismatch error
exactly when `A.colCount ≠ B.rowCount`, and in that case neither produces
a result matrix. -/
theorem claim_C4 (a b : Matrix) (n : Int) :
    (a.multiply b = .error .dimensionMismatch ↔ a.cols ≠ b.rows) ∧
    (a.multiplyParallel b n = .error .dimensionMismatch ↔ a.cols ≠ b.rows) ∧
    (a.cols ≠ b.rows →
      (∀ c, a.multiply b ≠ .ok c) ∧ (∀ c, a.multiplyParallel b n ≠ .ok c)) := by
  unfold Matrix.multiply Matrix.multiplyParallel
  by_cases h : a.cols ≠ b.rows
  · rw [if_pos h, if_pos h]
    exact ⟨⟨fun _ => h, fun _ => rfl⟩, ⟨fun _ => h, fun _ => rfl⟩,
      fun _ => ⟨fun c hc => Except.noConfusion hc, fun c hc => Except.noConfusion hc⟩⟩
  · rw [if_neg h, if_neg h]
    refine ⟨⟨fun hc => Except.noConfusion hc, fun hc => absurd hc h⟩, ?_,
      fun hc => absurd hc h⟩
    by_cases hn : n = 0
    · rw [if_pos hn]
      exact ⟨fun hc => MatrixError.noConfusion (Except.error.inj hc),
        fun hc => absurd hc h⟩
    · rw [if_neg hn]
      exact ⟨fun hc => Except.noConfusion hc, fun hc => absurd hc h⟩

theorem claim_C4_witness :
    (Matrix.construct 2 3).multiply (Matrix.construct 4 2) = .error .dimensionMismatch :=
  (claim_C4 (Matrix.construct 2 3) (Matrix.construct 4 2) 2).1.mpr (by decide)

/-- C5: element access (read and write) fails with the index-out-of-range
error exactly when the row or the column index falls outside
`[0, rowCount) × [0, colCount)`; the check runs on every access. -/
theorem claim_C5 (m : Matrix) (row col v : Int) :
    (m.at row col = .error .indexOutOfRange ↔
      ¬(0 ≤ row ∧ row < (m.rows : Int) ∧ 0 ≤ col ∧ col < (m.cols : Int))) ∧
    (m.atSet row col v = .error .indexOutOfRange ↔
      ¬(0 ≤ row ∧ row < (m.rows : Int) ∧ 0 ≤ col ∧ col < (m.cols : Int))) := by
  unfold Matrix.at Matrix.atSet
  by_cases hc : row < 0 ∨ row ≥ (m.rows : Int) ∨ col < 0 ∨ col ≥ (m.cols : Int)
  · rw [if_pos hc, if_pos hc]
    exact ⟨⟨fun _ => by omega, fun _ => rfl⟩, ⟨fun _ => by omega, fun _ => rfl⟩⟩
  · rw [if_neg hc, if_neg hc]
    exact ⟨⟨fun hcc => Except.noConfusion hcc, fun hcc => absurd (by omega) hcc⟩,
      ⟨fun hcc => Except.noConfusion hcc, fun hcc => absurd (by omega) hcc⟩⟩

theorem claim_C5_witness :
    (Matrix.construct 2 2).at (-1) 0 = .error .indexOutOfRange :=
  (claim_C5 (Matrix.construct 2 2) (-1) 0 0).1.mpr (by decide)

/-- C6 (counterexample to the claim as stated): with `workerCount = -1 ≤ 0`
and perfectly valid operands, `multiplyParallel` does not fail at all — it
silently returns the zero matrix (the thread-spawning loop body never
runs); in particular it does not fail with an invalid-worker-count
error. -/
theorem claim_C6_counterexample :
    (Matrix.mk 1 1 [[7]]).multiplyParallel (Matrix.mk 1 1 [[9]]) (-1)
        = .ok (Matrix.construct 1 1) ∧
    (Matrix.mk 1 1 [[7]]).multiplyParallel (Matrix.mk 1 1 [[9]]) (-1)
        ≠ .error .invalidWorkerCount := by
  exact ⟨by decide, by decide⟩

/-- C6 (amended): `multiplyParallel` performs no worker-count validation.
For `workerCount < 0` it returns the all-zero matrix of the result shape
without any error; for `workerCount = 0` it reaches the division
`total / 0`, which is undefined behaviour in C++ (marked in the model as
the explicit `undefinedBehavior` error). -/
theorem claim_C6_amended (a b : Matrix) (n : Int) (h : a.cols = b.rows) :
    (n < 0 → a.multiplyParallel b n = .ok (Matrix.construct a.rows b.cols)) ∧
    (n = 0 → a.multiplyParallel b n = .error .undefinedBehavior) := by
  constructor
  · intro hlt
    unfold Matrix.multiplyParallel
    rw [if_neg (fun hc => hc h), if_neg (by omega)]
    have h0 : n.toNat = 0 := by omega
    rw [h0]
    rfl
  · intro h0
    unfold Matrix.multiplyParallel
    rw [if_neg (fun hc => hc h), if_pos h0]

theorem claim_C6_amended_witness :
    (Matrix.mk 1 1 [[7]]).cols = (Matrix.mk 1 1 [[9]]).rows ∧
    (Matrix.mk 1 1 [[7]]).multiplyParallel (Matrix.mk 1 1 [[9]]) (-2)
      = .ok (Matrix.construct 1 1) :=
  ⟨rfl, (claim_C6_amended (Matrix.mk 1 1 [[7]]) (Matrix.mk 1 1 [[9]]) (-2) rfl).1 (by decide)⟩

/-- C7: every matrix reachable through the public operations (construct,
random fill, element write, sequential multiply, parallel multiply)
satisfies the storage invariant (`rowCount` rows of `colCount` cells
each), and `Construct(rowCount, colCount)` yields exactly that shape with
every cell zero. -/
theorem claim_C7 :
    (∀ m : Matrix, Reachable m → m.WF) ∧
    (∀ r c : Nat, (Matrix.construct r c).rows = r ∧ (Matrix.construct r c).cols = c ∧
      (Matrix.construct r c).WF ∧ ∀ i j, (Matrix.construct r c).get i j = 0) :=
  ⟨reachable_WF,
    fun r c => ⟨rfl, rfl, construct_WF r c, fun i j => getCell_construct r c i j⟩⟩

theorem claim_C7_witness : Matrix.WF (Matrix.construct 2 3) :=
  claim_C7.1 _ (Reachable.construct 2 3)

/-- C8: neither multiplication mutates its operands: threading the whole
machine state `(this, other, result)` through every read and write of the
source code, the inputs come out identical and the result component is
exactly the returned matrix. -/
theorem claim_C8 (a b : Matrix) (n : Int) :
    (a.multiplySt b = (a.multiply b).map (fun c => (a, b, c))) ∧
    (a.multiplyParallelSt b n = (a.multiplyParallel b n).map (fun c => (a, b, c))) ∧
    (∀ σ, a.multiplySt b = .ok σ → σ.1 = a ∧ σ.2.1 = b) ∧
    (∀ σ, a.multiplyParallelSt b n = .ok σ → σ.1 = a ∧ σ.2.1 = b) := by
  refine ⟨multiplySt_frame a b, multiplyParallelSt_frame a b n, ?_, ?_⟩
  · intro σ hσ
    rw [multiplySt_frame a b] at hσ
    cases hmul : a.multiply b with
    | error e => rw [hmul] at hσ; exact Except.noConfusion hσ
    | ok c =>
        rw [hmul] at hσ
        obtain rfl : σ = (a, b, c) := (Except.ok.inj hσ).symm
        exact ⟨rfl, rfl⟩
  · intro σ hσ
    rw [multiplyParallelSt_frame a b n] at hσ
    cases hmul : a.multiplyParallel b n with
    | error e => rw [hmul] at hσ; exact Except.noConfusion hσ
    | ok c =>
        rw [hmul] at hσ
        obtain rfl : σ = (a, b, c) := (Except.ok.inj hσ).symm
        exact ⟨rfl, rfl⟩

theorem claim_C8_witness :
    ((Matrix.mk 1 1 [[2]], Matrix.mk 1 1 [[3]], Matrix.mk 1 1 [[6]]) :
        Matrix × Matrix × Matrix).1 = Matrix.mk 1 1 [[2]] ∧
    ((Matrix.mk 1 1 [[2]], Matrix.mk 1 1 [[3]], Matrix.mk 1 1 [[6]]) :
        Matrix × Matrix × Matrix).2.1 = Matrix.mk 1 1 [[3]] :=
  (claim_C8 (Matrix.mk 1 1 [[2]]) (Matrix.mk 1 1 [[3]]) 1).2.2.1
    (Matrix.mk 1 1 [[2]], Matrix.mk 1 1 [[3]], Matrix.mk 1 1 [[6]]) (by decide)

/-- C9: after `FillRandom()` every cell lies in `[1, 10]`, whatever values
the randomness source produces, and the dimensions and shape are
preserved (the whole contents are overwritten). -/
theorem claim_C9 (m : Matrix) (gen : Nat → Nat) (h : m.WF) :
    (m.fill_increment_value gen).rows = m.rows ∧
    (m.fill_increment_value gen).cols = m.cols ∧
    (m.fill_increment_value gen).WF ∧
    ∀ i j, i < m.rows → j < m.cols →
      1 ≤ (m.fill_increment_value gen).get i j ∧
      (m.fill_increment_value gen).get i j ≤ 10 :=
  fill_result m gen h

theorem claim_C9_witness :
    Matrix.WF (Matrix.construct 2 2) ∧
    (1 ≤ ((Matrix.construct 2 2).fill_increment_value (fun t => 7 * t + 3)).get 0 1 ∧
      ((Matrix.construct 2 2).fill_increment_value (fun t => 7 * t + 3)).get 0 1 ≤ 10) :=
  ⟨by decide,
    (claim_C9 (Matrix.construct 2 2) (fun t => 7 * t + 3) (by decide)).2.2.2 0 1
      (by decide) (by decide)⟩

/-- C10: construction never validates its dimensions: with a zero row or
column count it succeeds (producing exactly the requested shape, no
`InvalidDimension` or other error — the constructor has no failure path at
all), and every subsequent element access, read or write, fails with the
index-out-of-range error. -/
theorem claim_C10 (r c : Nat) (h : r = 0 ∨ c = 0) :
    (Matrix.construct r c).rows = r ∧ (Matrix.construct r c).cols = c ∧
    (Matrix.construct r c).WF ∧
    (∀ row col : Int, (Matrix.construct r c).at row col = .error .indexOutOfRange) ∧
    (∀ row col v : Int,
      (Matrix.construct r c).atSet row col v = .error .indexOutOfRange) := by
  refine ⟨rfl, rfl, construct_WF r c, ?_, ?_⟩
  · intro row col
    unfold Matrix.at
    rw [if_pos ?_]
    show row < 0 ∨ row ≥ ((Matrix.construct r c).rows : Int) ∨ col < 0 ∨
      col ≥ ((Matrix.construct r c).cols : Int)
    have hr : (Matrix.construct r c).rows = r := rfl
    have hc : (Matrix.construct r c).cols = c := rfl
    rw [hr, hc]
    omega
  · intro row col v
    unfold Matrix.atSet
    rw [if_pos ?_]
    show row < 0 ∨ row ≥ ((Matrix.construct r c).rows : Int) ∨ col < 0 ∨
      col ≥ ((Matrix.construct r c).cols : Int)
    have hr : (Matrix.construct r c).rows = r := rfl
    have hc : (Matrix.construct r c).cols = c := rfl
    rw [hr, hc]
    omega

theorem claim_C10_witness :
    (0 = 0 ∨ 5 = 0) ∧ (Matrix.construct 0 5).at 3 2 = .error .indexOutOfRange :=
  ⟨Or.inl rfl, (claim_C10 0 5 (Or.inl rfl)).2.2.2.1 3 2⟩

end MatrixClass
